import Mathlib

/-!
Shallow embedding of `include/fplus/show.hpp` (FunctionalPlus `show` facility).

Conventions of the embedding:
* C++ `std::string` is Lean `String`; containers are Lean `List`s.
* The overload set `fplus::show` (generic stream-based default, `std::string`
  identity overload, `std::pair` overload) is modelled by the type class
  `Show'` whose instances mirror the overloads; instance resolution models
  the C++ static overload dispatch.
* Floating-point arguments of `show_float` are modelled as exact rationals
  (`ℚ`); the `std::stringstream << std::fixed << std::setprecision(d)`
  rendering of a nonnegative value is modelled by `showFixed`, which rounds
  exactly (round half away from zero for nonnegative inputs).
* `fplus::join` and `fplus::fill_left` live in `container_common.hpp`, which
  is not part of the sources at hand; they are modelled from the spec.
-/

namespace Fplus

/-- The C++ `show` overload set, modelled as a class: dispatch to the most
specific instance models static overload resolution. -/
class Show' (α : Type _) where
  show' : α → String

export Show' (show')

/-- Generic stream-based default `show` for `int`-like values:
`ss << x; return ss.str()` renders an integer in decimal with a leading
`-` for negative values, which is exactly Lean's `toString`. -/
instance : Show' Int := ⟨fun x => toString x⟩

/-- Generic stream-based default `show` for unsigned values. -/
instance : Show' Nat := ⟨fun x => toString x⟩

/-- The `std::string` overload of `show`: string identity. -/
instance : Show' String := ⟨fun s => s⟩

/-- The `std::pair` overload of `show`:
`"(" + show(p.first) + ", " + show(p.second) + ")"`. -/
instance {α β : Type _} [Show' α] [Show' β] : Show' (α × β) :=
  ⟨fun p => "(" ++ show' p.1 ++ ", " ++ show' p.2 ++ ")"⟩

/-- Modelled from the spec: the external string-joining primitive
`fplus::join` (from `container_common.hpp`, not among the given sources);
the spec assumes "string-joining with a separator" as a provided primitive
placing the separator between every adjacent pair of elements. -/
def join (separator : String) (xs : List String) : String :=
  String.intercalate separator xs

/-- Modelled from the spec: the padding engine `fplus::fill_left`
(`container_common.hpp`, not among the given sources); spec 4.6: "if input
length >= width, return unchanged; else prepend `width - length` copies of
`filler`". -/
def fill_left (filler : Char) (min_size : Nat) (s : String) : String :=
  if min_size ≤ s.length then s
  else String.mk (List.replicate (min_size - s.length) filler) ++ s

/-- Function `show_cont_with_frame_and_newlines` from `show.hpp`: renders each
element with `show`, inserting (for `new_line_every_nth_elem ≠ 0`) a
newline plus `pre.length` spaces before the element at each index `i` with
`i && i % new_line_every_nth_elem == 0`, then joins with the separator and
wraps in the frame. -/
def show_cont_with_frame_and_newlines {α : Type _} [Show' α]
    (separator : String) (pre suf : String) (xs : List α)
    (new_line_every_nth_elem : Nat) : String :=
  let elemStrs :=
    if new_line_every_nth_elem = 0 then
      xs.map show'
    else
      let newline := "\n" ++ String.mk (List.replicate pre.length ' ')
      xs.enum.map (fun ix =>
        if ix.1 ≠ 0 ∧ ix.1 % new_line_every_nth_elem = 0 then
          newline ++ show' ix.2
        else
          show' ix.2)
  pre ++ join separator elemStrs ++ suf

/-- Function `show_cont_with_frame` from `show.hpp`. -/
def show_cont_with_frame {α : Type _} [Show' α]
    (separator : String) (pre suf : String) (xs : List α) : String :=
  show_cont_with_frame_and_newlines separator pre suf xs 0

/-- Function `show_cont_with` from `show.hpp`. -/
def show_cont_with {α : Type _} [Show' α]
    (separator : String) (xs : List α) : String :=
  show_cont_with_frame separator "[" "]" xs

/-- Function `show_cont` from `show.hpp`. -/
def show_cont {α : Type _} [Show' α] (xs : List α) : String :=
  show_cont_with ", " xs

/-- Modelled from the spec: the external optional-like type (`maybe.hpp` is
not among the given sources); it exposes emptiness and payload extraction,
which `Option` provides. `show_maybe` itself is from `show.hpp`:
`"Nothing"` when empty, else `"Just " + show(unsafe_get_just(m))`. -/
def show_maybe {α : Type _} [Show' α] : Option α → String
  | none => "Nothing"
  | some x => "Just " ++ show' x

/-- Modelled from the spec: the external result-like sum type (`result.hpp`
is not among the given sources), carrying either an ok payload or an error
payload. -/
inductive result (Ok Error : Type _) : Type _
  | ok (v : Ok) : result Ok Error
  | error (e : Error) : result Ok Error

/-- Function `show_result` from `show.hpp`: `"Error " + show(e)` on the error case,
else `"Ok " + show(v)`. -/
def show_result {Ok Error : Type _} [Show' Ok] [Show' Error] :
    result Ok Error → String
  | .error e => "Error " ++ show' e
  | .ok v => "Ok " ++ show' v

/-- Decimal digit characters of `n`, most significant first; the first
argument is structural fuel (any fuel `> n` is enough). -/
def natDigitsAux : Nat → Nat → List Char
  | 0, _ => []
  | fuel + 1, n =>
    if n < 10 then [Nat.digitChar n]
    else natDigitsAux fuel (n / 10) ++ [Nat.digitChar (n % 10)]

/-- Decimal rendering of a natural number (no sign, no leading zeros). -/
def natRepr (n : Nat) : String := ⟨natDigitsAux (n + 1) n⟩

/-- Modelled from the spec: `std::stringstream << std::fixed <<
std::setprecision(d) << q` for a nonnegative value `q`, i.e. fixed-point
decimal rendering with exactly `d` digits after the point (no point at all
for `d = 0`), the value rounded to nearest at that precision (ties away
from zero for the nonnegative inputs it is used on; spec 4.4 step 3). -/
def showFixed (right_char_count : Nat) (q : ℚ) : String :=
  let n : Nat := (round (q * (10 : ℚ) ^ right_char_count)).toNat
  if right_char_count = 0 then natRepr n
  else
    natRepr (n / 10 ^ right_char_count) ++ "." ++
      fill_left '0' right_char_count (natRepr (n % 10 ^ right_char_count))

/-- Function `show_float` from `show.hpp` (the returned lambda, curried): decide the
sign, reduce the left-digit budget by one for a negative value when the
budget is positive, format `|x|` at fixed precision, left-pad with `'0'`
to `min_left_chars_final + 1 + right_char_count` characters, and prepend
`"-"` when negative. -/
def show_float (min_left_chars right_char_count : Nat) (x : ℚ) : String :=
  let min_left_chars_final :=
    if x < 0 ∧ 0 < min_left_chars then min_left_chars - 1 else min_left_chars
  let s := showFixed right_char_count |x|
  let min_dest_length := min_left_chars_final + 1 + right_char_count
  let res := fill_left '0' min_dest_length s
  if x < 0 then "-" ++ res else res

/-- Function `show_fill_left` from `show.hpp` (the returned lambda, curried):
`fill_left(filler, min_size, show(x))`. -/
def show_fill_left {α : Type _} [Show' α]
    (filler : Char) (min_size : Nat) (x : α) : String :=
  fill_left filler min_size (show' x)

/-- The characters strictly after the first `'.'` of `s` (empty when `s`
has no `'.'`). -/
def afterPoint (s : String) : List Char :=
  (s.data.dropWhile (fun c => c != '.')).tail

/-- The integer-part characters of a rendered number: drop one leading
`'-'` if present, then take up to (excluding) the first `'.'`. -/
def intPart (s : String) : List Char :=
  (if s.data.head? = some '-' then s.data.tail else s.data).takeWhile
    (fun c => c != '.')

/-- The container rendering described word-for-word by the spec (4.3):
render each element with `show`; before each element whose 0-based index is
a positive multiple of `every_n` (never when `every_n = 0`) insert a
newline followed by `pre.length` spaces; join everything with the
separator; wrap in the frame. -/
def spec_render_with_newlines {α : Type _} [Show' α]
    (separator : String) (pre suf : String) (xs : List α)
    (every_n : Nat) : String :=
  pre ++
    String.intercalate separator
      (xs.enum.map (fun ix =>
        (if every_n ≠ 0 ∧ 0 < ix.1 ∧ every_n ∣ ix.1 then
          "\n" ++ String.mk (List.replicate pre.length ' ')
        else "") ++ show' ix.2)) ++ suf

/-! ### Helper lemmas -/

theorem digitChar_isDigit {k : Nat} (h : k < 10) :
    (Nat.digitChar k).isDigit = true := by
  interval_cases k <;> decide

theorem isDigit_bne_dot {c : Char} (h : c.isDigit = true) :
    (c != '.') = true := by
  rw [bne_iff_ne]
  rintro rfl
  exact absurd h (by decide)

theorem isDigit_ne_dash {c : Char} (h : c.isDigit = true) : c ≠ '-' := by
  rintro rfl
  exact absurd h (by decide)

theorem natDigitsAux_isDigit :
    ∀ (fuel n : Nat), n < fuel → ∀ c ∈ natDigitsAux fuel n, c.isDigit = true := by
  intro fuel
  induction fuel with
  | zero => intro n hn; exact absurd hn (Nat.not_lt_zero n)
  | succ f ih =>
    intro n hn c hc
    by_cases h10 : n < 10
    · simp only [natDigitsAux, if_pos h10, List.mem_singleton] at hc
      subst hc
      exact digitChar_isDigit h10
    · simp only [natDigitsAux, if_neg h10, List.mem_append,
        List.mem_singleton] at hc
      rcases hc with hc | hc
      · have hdiv : n / 10 < n := Nat.div_lt_self (by omega) (by norm_num)
        exact ih (n / 10) (by omega) c hc
      · subst hc
        exact digitChar_isDigit (Nat.mod_lt _ (by norm_num))

theorem natDigitsAux_ne_nil :
    ∀ (fuel n : Nat), n < fuel → natDigitsAux fuel n ≠ [] := by
  intro fuel n hn
  cases fuel with
  | zero => exact absurd hn (Nat.not_lt_zero n)
  | succ f =>
    by_cases h10 : n < 10
    · simp [natDigitsAux, if_pos h10]
    · simp [natDigitsAux, if_neg h10]

theorem natDigitsAux_length_le :
    ∀ (fuel n d : Nat), n < fuel → 0 < d → n < 10 ^ d →
      (natDigitsAux fuel n).length ≤ d := by
  intro fuel
  induction fuel with
  | zero => intro n d hn; exact absurd hn (Nat.not_lt_zero n)
  | succ f ih =>
    intro n d hn hd hpow
    by_cases h10 : n < 10
    · simp only [natDigitsAux, if_pos h10, List.length_singleton]
      omega
    · have hd2 : 2 ≤ d := by
        by_contra hlt
        have hd1 : d = 1 := by omega
        subst hd1
        simp only [pow_one] at hpow
        omega
      have hten : (10 : Nat) ^ d = 10 ^ (d - 1) * 10 := by
        conv_lhs => rw [show d = (d - 1) + 1 by omega]
        rw [pow_succ]
      have hdivpow : n / 10 < 10 ^ (d - 1) :=
        (Nat.div_lt_iff_lt_mul (by norm_num)).2 (by omega)
      have hdiv : n / 10 < n := Nat.div_lt_self (by omega) (by norm_num)
      simp only [natDigitsAux, if_neg h10, List.length_append,
        List.length_singleton]
      have := ih (n / 10) (d - 1) (by omega) (by omega) hdivpow
      omega

theorem natRepr_data_isDigit (n : Nat) :
    ∀ c ∈ (natRepr n).data, c.isDigit = true :=
  natDigitsAux_isDigit (n + 1) n (Nat.lt_succ_self n)

theorem natRepr_data_ne_nil (n : Nat) : (natRepr n).data ≠ [] :=
  natDigitsAux_ne_nil (n + 1) n (Nat.lt_succ_self n)

theorem natRepr_length_le (n d : Nat) (hd : 0 < d) (h : n < 10 ^ d) :
    (natRepr n).data.length ≤ d :=
  natDigitsAux_length_le (n + 1) n d (Nat.lt_succ_self n) hd h

theorem string_append_empty (s : String) : s ++ "" = s := by
  cases s with
  | mk data => exact congrArg String.mk (List.append_nil data)

theorem string_empty_append (s : String) : "" ++ s = s := rfl

theorem string_length_eq_data (s : String) : s.length = s.data.length := rfl

theorem fill_left_data (c : Char) (w : Nat) (s : String) :
    (fill_left c w s).data = List.replicate (w - s.length) c ++ s.data := by
  unfold fill_left
  split
  · next h =>
    rw [Nat.sub_eq_zero_of_le h, List.replicate_zero, List.nil_append]
  · rw [String.data_append]

theorem fill_left_length (c : Char) (w : Nat) (s : String) :
    (fill_left c w s).length = max w s.length := by
  rw [string_length_eq_data, fill_left_data, List.length_append,
    List.length_replicate, ← string_length_eq_data]
  omega

theorem takeWhile_append_all {p : Char → Bool} {l₁ l₂ : List Char}
    (h : ∀ c ∈ l₁, p c = true) :
    (l₁ ++ l₂).takeWhile p = l₁ ++ l₂.takeWhile p := by
  induction l₁ with
  | nil => simp
  | cons a l ih =>
    have ha : p a = true := h a (List.mem_cons_self a l)
    simp only [List.cons_append, List.takeWhile_cons, ha, if_true]
    rw [ih (fun c hc => h c (List.mem_cons_of_mem a hc))]

theorem dropWhile_append_all {p : Char → Bool} {l₁ l₂ : List Char}
    (h : ∀ c ∈ l₁, p c = true) :
    (l₁ ++ l₂).dropWhile p = l₂.dropWhile p := by
  induction l₁ with
  | nil => simp
  | cons a l ih =>
    have ha : p a = true := h a (List.mem_cons_self a l)
    simp only [List.cons_append, List.dropWhile_cons, ha, if_true]
    exact ih (fun c hc => h c (List.mem_cons_of_mem a hc))

theorem showFixed_zero_eq (q : ℚ) :
    showFixed 0 q = natRepr ((round (q * (10 : ℚ) ^ (0 : Nat))).toNat) := rfl

theorem showFixed_pos_data (d : Nat) (hd : d ≠ 0) (q : ℚ) :
    (showFixed d q).data =
      (natRepr ((round (q * (10 : ℚ) ^ d)).toNat / 10 ^ d)).data ++
        '.' :: (fill_left '0' d
          (natRepr ((round (q * (10 : ℚ) ^ d)).toNat % 10 ^ d))).data := by
  unfold showFixed
  dsimp only
  rw [if_neg hd, String.data_append, String.data_append, List.append_assoc]
  rfl

theorem showFixed_pos_spec (d : Nat) (hd : d ≠ 0) (q : ℚ) :
    ∃ A F, (showFixed d q).data = A ++ '.' :: F ∧ A ≠ [] ∧
      (∀ c ∈ A, c.isDigit = true) ∧ (∀ c ∈ F, c.isDigit = true) ∧
      F.length = d := by
  refine ⟨_, _, showFixed_pos_data d hd q, natRepr_data_ne_nil _, ?_, ?_, ?_⟩
  · exact natRepr_data_isDigit _
  · intro c hc
    rw [fill_left_data] at hc
    rcases List.mem_append.1 hc with hc | hc
    · rw [(List.mem_replicate.1 hc).2]
      decide
    · exact natRepr_data_isDigit _ c hc
  · rw [← string_length_eq_data, fill_left_length]
    have hlt : (round (q * (10 : ℚ) ^ d)).toNat % 10 ^ d < 10 ^ d :=
      Nat.mod_lt _ (pow_pos (by norm_num) d)
    have := natRepr_length_le ((round (q * (10 : ℚ) ^ d)).toNat % 10 ^ d) d
      (by omega) hlt
    rw [string_length_eq_data]
    omega

theorem show_float_data (m d : Nat) (x : ℚ) :
    (show_float m d x).data =
      (if x < 0 then ['-'] else []) ++
        (List.replicate
            ((if x < 0 ∧ 0 < m then m - 1 else m) + 1 + d -
              (showFixed d |x|).length) '0' ++ (showFixed d |x|).data) := by
  unfold show_float
  dsimp only
  split
  · rw [String.data_append, fill_left_data]
  · rw [fill_left_data, List.nil_append]

theorem head_digit_aux (k : Nat) (a : Char) (l : List Char)
    (ha : a.isDigit = true) :
    ∃ c, (List.replicate k '0' ++ a :: l).head? = some c ∧
      c.isDigit = true := by
  cases k with
  | zero => exact ⟨a, rfl, ha⟩
  | succ k => exact ⟨'0', rfl, by decide⟩

theorem show_float_head_nonneg (m d : Nat) (x : ℚ) (hx : ¬ x < 0) :
    ∃ c, (show_float m d x).data.head? = some c ∧ c.isDigit = true := by
  rw [show_float_data, if_neg hx, List.nil_append]
  by_cases hd : d = 0
  · subst hd
    rw [showFixed_zero_eq]
    rcases hl : (natRepr ((round (|x| * (10 : ℚ) ^ (0 : Nat))).toNat)).data with
      _ | ⟨a, rest⟩
    · exact absurd hl (natRepr_data_ne_nil _)
    · have ha : a.isDigit = true := by
        apply natRepr_data_isDigit
        rw [hl]
        exact List.mem_cons_self a rest
      exact head_digit_aux _ a rest ha
  · obtain ⟨A, F, hAF, hAne, hAdig, _, _⟩ := showFixed_pos_spec d hd |x|
    rw [hAF]
    rcases hA : A with _ | ⟨a, A'⟩
    · exact absurd hA hAne
    · subst hA
      have ha : a.isDigit = true := hAdig a (List.mem_cons_self a A')
      rw [List.cons_append]
      exact head_digit_aux _ a (A' ++ '.' :: F) ha

theorem takeWhile_all {p : Char → Bool} {l : List Char}
    (h : ∀ c ∈ l, p c = true) : l.takeWhile p = l := by
  induction l with
  | nil => rfl
  | cons a t ih =>
    have ha := h a (List.mem_cons_self a t)
    simp only [List.takeWhile_cons, ha, if_true]
    rw [ih (fun c hc => h c (List.mem_cons_of_mem a hc))]

theorem show_float_parts (m d : Nat) (x : ℚ) :
    ∃ (pad : Nat) (I : List Char),
      intPart (show_float m d x) = List.replicate pad '0' ++ I ∧
      (∀ c ∈ I, c.isDigit = true) ∧
      (if x < 0 ∧ 0 < m then m - 1 else m) ≤ pad + I.length ∧
      (afterPoint (show_float m d x)).length = d ∧
      (∀ c ∈ afterPoint (show_float m d x), c.isDigit = true) ∧
      ((show_float m d x).data.head? = some '-' ↔ x < 0) := by
  have hdata := show_float_data m d x
  have hhead : (show_float m d x).data.head? = some '-' ↔ x < 0 := by
    constructor
    · intro h
      by_contra hx
      obtain ⟨c, hc, hdig⟩ := show_float_head_nonneg m d x hx
      rw [h] at hc
      exact absurd (Option.some.inj hc).symm (isDigit_ne_dash hdig)
    · intro hx
      rw [hdata, if_pos hx]
      rfl
  have hsign : ∀ c ∈ (if x < 0 then ['-'] else ([] : List Char)),
      (c != '.') = true := by
    split
    · intro c hc
      rw [List.mem_singleton] at hc
      subst hc
      decide
    · intro c hc
      exact absurd hc (List.not_mem_nil c)
  have hrep : ∀ (k : Nat), ∀ c ∈ List.replicate k '0', (c != '.') = true := by
    intro k c hc
    rw [(List.mem_replicate.1 hc).2]
    decide
  have hstrip :
      (if (show_float m d x).data.head? = some '-' then
        (show_float m d x).data.tail else (show_float m d x).data) =
        List.replicate ((if x < 0 ∧ 0 < m then m - 1 else m) + 1 + d -
          (showFixed d |x|).length) '0' ++ (showFixed d |x|).data := by
    by_cases hx : x < 0
    · rw [if_pos (hhead.2 hx), hdata, if_pos hx]
      rfl
    · rw [if_neg (fun h => hx (hhead.1 h)), hdata, if_neg hx, List.nil_append]
  refine ⟨(if x < 0 ∧ 0 < m then m - 1 else m) + 1 + d -
    (showFixed d |x|).length, ?_⟩
  by_cases hd : d = 0
  · subst hd
    have hsfdig : ∀ c ∈ (showFixed 0 |x|).data, c.isDigit = true := by
      intro c hc
      rw [showFixed_zero_eq] at hc
      exact natRepr_data_isDigit _ c hc
    have hip : intPart (show_float m 0 x) =
        List.replicate ((if x < 0 ∧ 0 < m then m - 1 else m) + 1 + 0 -
          (showFixed 0 |x|).length) '0' ++ (showFixed 0 |x|).data := by
      unfold intPart
      rw [hstrip]
      apply takeWhile_all
      intro c hc
      rcases List.mem_append.1 hc with hc | hc
      · exact hrep _ c hc
      · exact isDigit_bne_dot (hsfdig c hc)
    have hall : ∀ c ∈ (show_float m 0 x).data, (c != '.') = true := by
      rw [hdata]
      intro c hc
      rcases List.mem_append.1 hc with hc | hc
      · exact hsign c hc
      · rcases List.mem_append.1 hc with hc | hc
        · exact hrep _ c hc
        · exact isDigit_bne_dot (hsfdig c hc)
    have hap : afterPoint (show_float m 0 x) = [] := by
      unfold afterPoint
      rw [List.dropWhile_eq_nil_iff.2 hall]
      rfl
    refine ⟨(showFixed 0 |x|).data, hip, hsfdig, ?_, ?_, ?_, hhead⟩
    · have hlen := string_length_eq_data (showFixed 0 |x|)
      omega
    · rw [hap]
      rfl
    · rw [hap]
      intro c hc
      exact absurd hc (List.not_mem_nil c)
  · obtain ⟨A, F, hAF, hAne, hAdig, hFdig, hFlen⟩ := showFixed_pos_spec d hd |x|
    have hA : ∀ c ∈ A, (c != '.') = true :=
      fun c hc => isDigit_bne_dot (hAdig c hc)
    have hdot : (('.' : Char) != '.') = false := by decide
    have hip : intPart (show_float m d x) =
        List.replicate ((if x < 0 ∧ 0 < m then m - 1 else m) + 1 + d -
          (showFixed d |x|).length) '0' ++ A := by
      unfold intPart
      rw [hstrip, hAF, ← List.append_assoc]
      rw [takeWhile_append_all (by
        intro c hc
        rcases List.mem_append.1 hc with hc | hc
        · exact hrep _ c hc
        · exact hA c hc)]
      rw [List.takeWhile_cons, hdot]
      simp only [Bool.false_eq_true, if_false, List.append_nil,
        List.append_assoc]
    have hap : afterPoint (show_float m d x) = F := by
      unfold afterPoint
      rw [hdata, hAF, dropWhile_append_all hsign, dropWhile_append_all (hrep _),
        dropWhile_append_all hA, List.dropWhile_cons, hdot]
      simp only [Bool.false_eq_true, if_false, List.tail_cons]
    refine ⟨A, hip, hAdig, ?_, ?_, ?_, hhead⟩
    · have h1 := string_length_eq_data (showFixed d |x|)
      rw [hAF] at h1
      simp only [List.length_append, List.length_cons] at h1
      omega
    · rw [hap]
      exact hFlen
    · rw [hap]
      exact hFdig

theorem round_pi3 : round ((314159 : ℚ)/100000 * 10 ^ 3) = 3142 := by
  rw [round_eq, Int.floor_eq_iff]
  norm_num

theorem show_float_eval1 : show_float 0 3 ((314159 : ℚ)/100000) = "3.142" := by
  have hx : ¬((314159 : ℚ)/100000 < 0) := by norm_num
  have habs : |(314159 : ℚ)/100000| = (314159 : ℚ)/100000 :=
    abs_of_nonneg (by norm_num)
  simp only [show_float, showFixed, habs, round_pi3, eq_false hx, false_and,
    if_false]
  decide

theorem show_float_eval2 : show_float 2 3 ((314159 : ℚ)/100000) = "03.142" := by
  have hx : ¬((314159 : ℚ)/100000 < 0) := by norm_num
  have habs : |(314159 : ℚ)/100000| = (314159 : ℚ)/100000 :=
    abs_of_nonneg (by norm_num)
  simp only [show_float, showFixed, habs, round_pi3, eq_false hx, false_and,
    if_false]
  decide

theorem show_float_eval3 :
    show_float 3 3 (-((314159 : ℚ)/100000)) = "-03.142" := by
  have hx : (-((314159 : ℚ)/100000)) < 0 := by norm_num
  have habs : |(-((314159 : ℚ)/100000))| = (314159 : ℚ)/100000 := by
    rw [abs_neg]
    exact abs_of_nonneg (by norm_num)
  simp only [show_float, showFixed, habs, round_pi3, eq_true hx, true_and,
    if_true]
  decide

theorem show_float_eval4 : show_float 0 3 ((142 : ℚ)/1000) = "0.142" := by
  have hx : ¬((142 : ℚ)/1000 < 0) := by norm_num
  have habs : |(142 : ℚ)/1000| = (142 : ℚ)/1000 := abs_of_nonneg (by norm_num)
  have hr : round ((142 : ℚ)/1000 * 10 ^ 3) = 142 := by
    rw [round_eq, Int.floor_eq_iff]
    norm_num
  simp only [show_float, showFixed, habs, hr, eq_false hx, false_and, if_false]
  decide

theorem show_float_eval5 : show_float 0 3 (-((1 : ℚ)/10000)) = "-0.000" := by
  have hx : (-((1 : ℚ)/10000)) < 0 := by norm_num
  have habs : |(-((1 : ℚ)/10000))| = (1 : ℚ)/10000 := by
    rw [abs_neg]
    exact abs_of_nonneg (by norm_num)
  have hr : round ((1 : ℚ)/10000 * 10 ^ 3) = 0 := by
    rw [round_eq, Int.floor_eq_iff]
    norm_num
  simp only [show_float, showFixed, habs, hr, eq_true hx, true_and, if_true]
  decide

/-! ### Claim theorems -/

/-- C1: `show_cont_with_frame_and_newlines` renders each element with `show`
and joins them with the separator inside the frame; for `every_n = 0` no
newline is inserted, and otherwise a newline followed by exactly
`pre.length` space characters is inserted immediately before the rendered
text of each element whose 0-based index is a positive multiple of
`every_n`, with the separator still appearing between every adjacent pair
of elements regardless of wrapping — i.e. the code coincides with the
spec-side rendering `spec_render_with_newlines`. -/
theorem C1_frame_and_newlines_matches_spec {α : Type} [Show' α]
    (separator pre suf : String) (xs : List α) (every_n : Nat) :
    show_cont_with_frame_and_newlines separator pre suf xs every_n =
      spec_render_with_newlines separator pre suf xs every_n := by
  unfold show_cont_with_frame_and_newlines spec_render_with_newlines join
  dsimp only
  by_cases h0 : every_n = 0
  · subst h0
    rw [if_pos rfl]
    have hlist : xs.enum.map (fun ix =>
        (if (0 : Nat) ≠ 0 ∧ 0 < ix.1 ∧ (0 : Nat) ∣ ix.1 then
          "\n" ++ String.mk (List.replicate pre.length ' ')
        else "") ++ show' ix.2) = xs.map show' := by
      have h1 : xs.enum.map (fun ix =>
          (if (0 : Nat) ≠ 0 ∧ 0 < ix.1 ∧ (0 : Nat) ∣ ix.1 then
            "\n" ++ String.mk (List.replicate pre.length ' ')
          else "") ++ show' ix.2) = xs.enum.map (fun ix => show' ix.2) :=
        List.map_congr_left (fun a _ => by
          rw [if_neg (by simp), string_empty_append])
      rw [h1, show (fun ix : Nat × α => show' ix.2) = show' ∘ Prod.snd from rfl,
        ← List.map_map, List.enum_map_snd]
    rw [hlist]
  · rw [if_neg h0]
    have hlist : xs.enum.map (fun ix =>
        if ix.1 ≠ 0 ∧ ix.1 % every_n = 0 then
          ("\n" ++ String.mk (List.replicate pre.length ' ')) ++ show' ix.2
        else show' ix.2) =
        xs.enum.map (fun ix =>
          (if every_n ≠ 0 ∧ 0 < ix.1 ∧ every_n ∣ ix.1 then
            "\n" ++ String.mk (List.replicate pre.length ' ')
          else "") ++ show' ix.2) := by
      apply List.map_congr_left
      intro a _
      by_cases hc : a.1 ≠ 0 ∧ a.1 % every_n = 0
      · rw [if_pos hc,
          if_pos ⟨h0, Nat.pos_of_ne_zero hc.1, Nat.dvd_of_mod_eq_zero hc.2⟩]
      · rw [if_neg hc, if_neg (fun h => hc ⟨by omega,
          Nat.eq_zero_of_dvd_of_lt h.2.2 |> fun _ => by
            omega⟩), string_empty_append]
    rw [hlist]

/-- C2 (counterexample): `show_cont_with_frame_and_newlines(",", "(", ")",
[1,2,3,4,5], 2)` does NOT return `"(1,2\n     3,4\n     5)"` — the
indentation is `pre.length = 1` space, not five, and the separator does
appear before each inserted newline. -/
theorem C2_counterexample :
    show_cont_with_frame_and_newlines "," "(" ")"
        ([1, 2, 3, 4, 5] : List Int) 2 ≠ "(1,2\n     3,4\n     5)" := by
  decide

/-- C2 (amended): `show_cont_with_frame_and_newlines(",", "(", ")",
[1,2,3,4,5], 2)` returns exactly `"(1,2,\n 3,4,\n 5)"`: a newline followed
by one space (the length of the prefix `"("`) before the elements at
indices 2 and 4, with the separator still emitted before each newline. -/
theorem C2_amended_example :
    show_cont_with_frame_and_newlines "," "(" ")"
        ([1, 2, 3, 4, 5] : List Int) 2 = "(1,2,\n 3,4,\n 5)" := by
  decide

/-- C3 (counterexample): the output of `show_float(3,3)` on `-3.14159` is
`"-03.142"`, whose integer part has only 2 digits — the integer part is
NOT zero-padded to at least `min_left_digits = 3` digits with the sign not
counting toward the width, refuting the claimed guarantee. -/
theorem C3_counterexample :
    ¬ (3 ≤ (intPart (show_float 3 3 (-((314159 : ℚ)/100000)))).length) := by
  rw [show_float_eval3]
  decide

/-- C3 (amended): `show_float(min_left_digits, right_digits)(x)` always has
exactly `right_digits` digit characters after the decimal point; its
integer part consists of digits and is zero-padded to at least
`min_left_digits` digits when `x ≥ 0` or `min_left_digits = 0`, and to at
least `min_left_digits - 1` digits when `x < 0` and `min_left_digits > 0`
(the `'-'` sign occupies one slot of the requested width); the `'-'` sign
is prepended exactly when `x < 0`. -/
theorem C3_padding_guarantees (m d : Nat) (x : ℚ) :
    (afterPoint (show_float m d x)).length = d ∧
    (∀ c ∈ afterPoint (show_float m d x), c.isDigit = true) ∧
    (if x < 0 ∧ 0 < m then m - 1 else m) ≤
      (intPart (show_float m d x)).length ∧
    (∀ c ∈ intPart (show_float m d x), c.isDigit = true) ∧
    ((show_float m d x).data.head? = some '-' ↔ x < 0) := by
  obtain ⟨pad, I, hip, hIdig, hlen, hapl, hapdig, hhead⟩ :=
    show_float_parts m d x
  refine ⟨hapl, hapdig, ?_, ?_, hhead⟩
  · rw [hip, List.length_append, List.length_replicate]
    exact hlen
  · rw [hip]
    intro c hc
    rcases List.mem_append.1 hc with hc | hc
    · rw [(List.mem_replicate.1 hc).2]
      decide
    · exact hIdig c hc

/-- C3 (amended) witness: the guarantees instantiated at
`show_float 3 3 (-3.14159)`. -/
theorem C3_padding_guarantees_witness :
    (afterPoint (show_float 3 3 (-((314159 : ℚ)/100000)))).length = 3 ∧
    (if (-((314159 : ℚ)/100000)) < 0 ∧ (0 : Nat) < 3 then 3 - 1 else 3) ≤
      (intPart (show_float 3 3 (-((314159 : ℚ)/100000)))).length :=
  ⟨(C3_padding_guarantees 3 3 (-((314159 : ℚ)/100000))).1,
   (C3_padding_guarantees 3 3 (-((314159 : ℚ)/100000))).2.2.1⟩

/-- C4: `show_float(min_left_digits, right_digits)(x)` takes
`is_negative = (x < 0)`, uses the effective minimum left-digit count
`min_left_digits - 1` when negative with `min_left_digits > 0`, formats
`abs(x)` at fixed precision, left-pads with `'0'` to
`effective + 1 + right_digits` characters and prepends `"-"` exactly when
negative; in particular `show_float(0,3)(3.14159) = "3.142"`,
`show_float(2,3)(3.14159) = "03.142"`,
`show_float(3,3)(-3.14159) = "-03.142"` and
`show_float(0,3)(0.142) = "0.142"`. -/
theorem C4_show_float_algorithm :
    (∀ (m d : Nat) (x : ℚ),
        show_float m d x =
          (if x < 0 then "-" else "") ++
            fill_left '0' ((if x < 0 ∧ 0 < m then m - 1 else m) + 1 + d)
              (showFixed d |x|)) ∧
    show_float 0 3 ((314159 : ℚ)/100000) = "3.142" ∧
    show_float 2 3 ((314159 : ℚ)/100000) = "03.142" ∧
    show_float 3 3 (-((314159 : ℚ)/100000)) = "-03.142" ∧
    show_float 0 3 ((142 : ℚ)/1000) = "0.142" := by
  refine ⟨?_, show_float_eval1, show_float_eval2, show_float_eval3,
    show_float_eval4⟩
  intro m d x
  unfold show_float
  dsimp only
  split
  · rfl
  · exact (string_empty_append _).symm

/-- C5: `show` on a string is the identity (the string overload is selected
over the generic stream-based default, no quoting or escaping), and `show`
on a pair renders `"(" ++ show a ++ ", " ++ show b ++ ")"`, the recursive
calls dispatching through the same instance resolution. -/
theorem C5_show_dispatch :
    (∀ s : String, show' s = s) ∧
    (∀ (α β : Type) [Show' α] [Show' β] (a : α) (b : β),
      show' (a, b) = "(" ++ show' a ++ ", " ++ show' b ++ ")") :=
  ⟨fun _ => rfl, fun _ _ _ _ _ _ => rfl⟩

/-- C6: `show_maybe` renders an absent value as `"Nothing"` and a present
payload `v` as `"Just " ++ show v`; `show_result` renders an error payload
`e` as `"Error " ++ show e` and an ok payload `v` as `"Ok " ++ show v` —
the fixed tag literal is separated from the rendered payload by exactly one
space, with no trailing content. -/
theorem C6_show_maybe_show_result :
    (∀ (α : Type) [Show' α], show_maybe (none : Option α) = "Nothing") ∧
    (∀ (α : Type) [Show' α] (v : α),
      show_maybe (some v) = "Just " ++ show' v) ∧
    (∀ (A B : Type) [Show' A] [Show' B] (e : B),
      show_result (result.error e : result A B) = "Error " ++ show' e) ∧
    (∀ (A B : Type) [Show' A] [Show' B] (v : A),
      show_result (result.ok v : result A B) = "Ok " ++ show' v) :=
  ⟨fun _ _ => rfl, fun _ _ _ => rfl, fun _ _ _ _ _ => rfl,
    fun _ _ _ _ _ => rfl⟩

/-- C7: `show_cont xs = show_cont_with ", " xs`, which equals
`show_cont_with_frame` with `"["`/`"]"`; an empty container renders as
exactly `pre ++ suf`, a single-element container's rendering emits no
separator, and `show_cont [1,2,3] = "[1, 2, 3]"`, `show_cont [] = "[]"`. -/
theorem C7_show_cont_layers :
    (∀ (α : Type) [Show' α] (xs : List α),
        show_cont xs = show_cont_with ", " xs) ∧
    (∀ (α : Type) [Show' α] (separator : String) (xs : List α),
        show_cont_with separator xs =
          show_cont_with_frame separator "[" "]" xs) ∧
    (∀ (α : Type) [Show' α] (separator pre suf : String),
        show_cont_with_frame separator pre suf ([] : List α) = pre ++ suf) ∧
    (∀ (α : Type) [Show' α] (separator : String) (x : α),
        show_cont_with separator [x] = "[" ++ show' x ++ "]") ∧
    show_cont ([1, 2, 3] : List Int) = "[1, 2, 3]" ∧
    show_cont ([] : List Int) = "[]" := by
  refine ⟨fun _ _ _ => rfl, fun _ _ _ _ => rfl, ?_, ?_, by decide, rfl⟩
  · intro α _ separator pre suf
    show (pre ++ "") ++ suf = pre ++ suf
    rw [string_append_empty]
  · intro α _ separator x
    rfl

/-- C8: `fill_left(c, w, s)` has length `max w (length s)`; if
`length s < w`, its first `w - length s` characters all equal `c` and the
remainder equals `s`; if `length s ≥ w` the input is returned unchanged
(no truncation); and `show_fill_left(c, w)(x)` is exactly `fill_left`
applied to `show x`, so a rendering already at least `w` characters long is
returned unchanged. -/
theorem C8_fill_left_padding (c : Char) (w : Nat) (s : String) :
    (fill_left c w s).length = max w s.length ∧
    (s.length < w →
      (fill_left c w s).data.take (w - s.length) =
          List.replicate (w - s.length) c ∧
        (fill_left c w s).data.drop (w - s.length) = s.data) ∧
    (w ≤ s.length → fill_left c w s = s) ∧
    (∀ (α : Type) [Show' α] (x : α),
      show_fill_left c w x = fill_left c w (show' x) ∧
      (w ≤ (show' x).length → show_fill_left c w x = show' x)) := by
  refine ⟨fill_left_length c w s, ?_, ?_, ?_⟩
  · intro _
    constructor
    · have h := List.take_left (List.replicate (w - s.length) c) s.data
      rw [List.length_replicate] at h
      rw [fill_left_data]
      exact h
    · have h := List.drop_left (List.replicate (w - s.length) c) s.data
      rw [List.length_replicate] at h
      rw [fill_left_data]
      exact h
  · intro hle
    unfold fill_left
    rw [if_pos hle]
  · intro α _ x
    refine ⟨rfl, fun h => ?_⟩
    show fill_left c w (show' x) = show' x
    unfold fill_left
    rw [if_pos h]

/-- C8 witness: the padding facts instantiated at `'x'`, widths 5 and 1,
string `"ab"`, and at `show_fill_left ' ' 4` on the integer 12345. -/
theorem C8_fill_left_padding_witness :
    ("ab".length < 5 ∧
      (fill_left 'x' 5 "ab").data.take 3 = List.replicate 3 'x') ∧
    (1 ≤ "ab".length ∧ fill_left 'x' 1 "ab" = "ab") ∧
    (4 ≤ (show' (12345 : Int)).length ∧
      show_fill_left ' ' 4 (12345 : Int) = show' (12345 : Int)) :=
  ⟨⟨by decide, ((C8_fill_left_padding 'x' 5 "ab").2.1 (by decide)).1⟩,
   ⟨by decide, (C8_fill_left_padding 'x' 1 "ab").2.2.1 (by decide)⟩,
   ⟨by decide,
    ((C8_fill_left_padding ' ' 4 "").2.2.2 Int (12345 : Int)).2 (by decide)⟩⟩

/-- C9: when `0 < every_n` and `every_n` is at least the number of
elements, `show_cont_with_frame_and_newlines` returns exactly the same
string as with `every_n = 0`, equivalently as `show_cont_with_frame`: no
element's 0-based index is a positive multiple of `every_n`, so no newline
is inserted. -/
theorem C9_large_every_n_no_newlines {α : Type} [Show' α]
    (separator pre suf : String) (xs : List α) (every_n : Nat)
    (h0 : 0 < every_n) (hlen : xs.length ≤ every_n) :
    show_cont_with_frame_and_newlines separator pre suf xs every_n =
        show_cont_with_frame_and_newlines separator pre suf xs 0 ∧
      show_cont_with_frame_and_newlines separator pre suf xs every_n =
        show_cont_with_frame separator pre suf xs := by
  have key : show_cont_with_frame_and_newlines separator pre suf xs every_n =
      show_cont_with_frame_and_newlines separator pre suf xs 0 := by
    unfold show_cont_with_frame_and_newlines
    dsimp only
    rw [if_neg (by omega : ¬ every_n = 0), if_pos rfl]
    have hlist : xs.enum.map (fun ix =>
        if ix.1 ≠ 0 ∧ ix.1 % every_n = 0 then
          ("\n" ++ String.mk (List.replicate pre.length ' ')) ++ show' ix.2
        else show' ix.2) = xs.map show' := by
      have h1 : xs.enum.map (fun ix =>
          if ix.1 ≠ 0 ∧ ix.1 % every_n = 0 then
            ("\n" ++ String.mk (List.replicate pre.length ' ')) ++ show' ix.2
          else show' ix.2) = xs.enum.map (fun ix => show' ix.2) := by
        apply List.map_congr_left
        intro a ha
        have hlt : a.1 < 0 + xs.length :=
          List.fst_lt_add_of_mem_enumFrom (ha : a ∈ List.enumFrom 0 xs)
        rw [if_neg ?_]
        rintro ⟨hne, hmod⟩
        rw [Nat.mod_eq_of_lt (by omega)] at hmod
        exact hne hmod
      rw [h1, show (fun ix : Nat × α => show' ix.2) = show' ∘ Prod.snd from rfl,
        ← List.map_map, List.enum_map_snd]
    rw [hlist]
  exact ⟨key, key⟩

/-- C9 witness: instantiated at separator `","`, frame `"("`/`")"`,
`[1,2,3]` and `every_n = 5`. -/
theorem C9_large_every_n_no_newlines_witness :
    0 < 5 ∧ ([1, 2, 3] : List Int).length ≤ 5 ∧
      (show_cont_with_frame_and_newlines "," "(" ")" ([1, 2, 3] : List Int) 5 =
          show_cont_with_frame_and_newlines "," "(" ")"
            ([1, 2, 3] : List Int) 0 ∧
        show_cont_with_frame_and_newlines "," "(" ")" ([1, 2, 3] : List Int) 5 =
          show_cont_with_frame "," "(" ")" ([1, 2, 3] : List Int)) :=
  ⟨by decide, by decide,
    C9_large_every_n_no_newlines "," "(" ")" ([1, 2, 3] : List Int) 5
      (by decide) (by decide)⟩

/-- C10: the string returned by `show_float(m, d)(x)` begins with `'-'` if
and only if `x < 0`; negative zero compares not-less-than zero and is
rendered identically to `+0` with no sign, while every strictly negative
value, however tiny, gets a leading `'-'` — e.g.
`show_float(0,3)(-0.0001) = "-0.000"`. -/
theorem C10_sign_iff_negative :
    (∀ (m d : Nat) (x : ℚ),
        ((show_float m d x).data.head? = some '-' ↔ x < 0)) ∧
    (∀ (m d : Nat), show_float m d (-(0 : ℚ)) = show_float m d 0) ∧
    show_float 0 3 (-((1 : ℚ)/10000)) = "-0.000" := by
  refine ⟨?_, ?_, show_float_eval5⟩
  · intro m d x
    obtain ⟨_, _, _, _, _, _, _, hhead⟩ := show_float_parts m d x
    exact hhead
  · intro m d
    exact congrArg (show_float m d) neg_zero

end Fplus
